import Mathlib

/-!
Verification development for the movie recommendation engine.

The definitions below are a shallow embedding of the similarity/ranking
algorithms (Jaccard, cosine, Levenshtein, the combined score, fuzzy title
matching, search and recommendation ranking).  Strings are modelled as Lean
`String`s / `List Char`; JavaScript numbers are modelled exactly, with `ℚ`
for the purely rational scores and `ℝ` for the scores that involve a square
root (cosine similarity and everything built on top of it).  JavaScript's
`Array.prototype.sort` with comparator `(a, b) => b.score - a.score` is
modelled by an insertion sort that orders by descending score.
-/

/-- Whitespace test used for splitting (JS `/\s+/`). -/
def isWS (c : Char) : Bool := c.isWhitespace

/-- Characterwise lowercasing of a string (JS `toLowerCase`), as a char list. -/
def lowerStr (s : String) : List Char := s.toList.map Char.toLower

/-- Characterwise lowercasing returning a `String`. -/
def strLower (s : String) : String := String.mk (lowerStr s)

/-- Accumulator-based splitting of a char list into maximal runs of
characters failing `p` (the separator test).  Mirrors JS `split(/\s+/)`
followed by dropping empty fragments, which is observationally equal here
because every caller filters tokens by a positive length bound. -/
def wordsByAux (p : Char → Bool) : List Char → List Char → List (List Char)
  | [], acc => if acc = [] then [] else [acc.reverse]
  | c :: cs, acc =>
    if p c then
      if acc = [] then wordsByAux p cs []
      else acc.reverse :: wordsByAux p cs []
    else wordsByAux p cs (c :: acc)

/-- Split a char list into words separated by characters satisfying `p`. -/
def wordsBy (p : Char → Bool) (s : List Char) : List (List Char) := wordsByAux p s []

/-- Predicate `listStartsWith h s` decides whether `s` is an initial segment of `h`. -/
def listStartsWith : List Char → List Char → Bool
  | _, [] => true
  | [], _ :: _ => false
  | a :: as, b :: bs => a = b && listStartsWith as bs

/-- Predicate `listHasSub hay sub` decides whether `sub` occurs contiguously inside
`hay` (JS `String.prototype.includes`). -/
def listHasSub : List Char → List Char → Bool
  | [], sub => sub.isEmpty
  | c :: t, sub => listStartsWith (c :: t) sub || listHasSub t sub

/-- JS `String.prototype.trim`: drop leading and trailing whitespace. -/
def jsTrim (s : List Char) : List Char :=
  ((s.dropWhile isWS).reverse.dropWhile isWS).reverse

/-- The stopword set of the source (`STOPWORDS`). -/
def STOPWORDS : List String :=
  ["the", "a", "an", "and", "or", "but", "in", "on", "at", "to", "for",
   "of", "with", "by", "from", "as", "is", "was", "are", "were", "been",
   "be", "have", "has", "had", "do", "does", "did", "will", "would",
   "could", "should", "may", "might", "must", "can", "this", "that",
   "these", "those", "it", "its", "his", "her", "their", "our"]

/-- The `preprocessText` normalizer: lowercase, split on whitespace, keep words longer than
2 characters that are purely alphabetic and not stopwords.  The source's
memoization cache is a pure performance layer and is not modelled. -/
def preprocessText (text : String) : List String :=
  ((wordsBy isWS (lowerStr text)).map (fun w => String.mk w)).filter
    (fun w => w.length > 2 && !(STOPWORDS.contains w) &&
      w.toList.all (fun c => 'a' ≤ c && c ≤ 'z'))

/-- Function `jaccardSimilarity`: intersection size over union size of the two
preprocessed word sets, with the source's empty-set and empty-union guards. -/
def jaccardSimilarity (str1 str2 : String) : ℚ :=
  let set1 := (preprocessText str1).toFinset
  let set2 := (preprocessText str2).toFinset
  if set1.card = 0 ∨ set2.card = 0 then 0
  else
    let intersectionCount := (set1.filter (fun w => w ∈ set2)).card
    let unionSize := set1.card + set2.card - intersectionCount
    if unionSize = 0 then 0 else (intersectionCount : ℚ) / (unionSize : ℚ)

/-- Function `cosineSimilarity`: dot product of the term-frequency vectors over the
combined vocabulary, divided by the product of their Euclidean magnitudes,
with the source's empty-input and zero-magnitude guards. -/
noncomputable def cosineSimilarity (str1 str2 : String) : ℝ :=
  let words1 := preprocessText str1
  let words2 := preprocessText str2
  if words1.length = 0 ∨ words2.length = 0 then 0
  else
    let allWords := words1.toFinset ∪ words2.toFinset
    let dotProduct : ℕ := ∑ w ∈ allWords, words1.count w * words2.count w
    let magnitude1 : ℝ := Real.sqrt ((∑ w ∈ allWords, words1.count w * words1.count w : ℕ) : ℝ)
    let magnitude2 : ℝ := Real.sqrt ((∑ w ∈ allWords, words2.count w * words2.count w : ℕ) : ℝ)
    if magnitude1 = 0 ∨ magnitude2 = 0 then 0
    else (dotProduct : ℝ) / (magnitude1 * magnitude2)

/-- One row step of the full Levenshtein matrix: given row `i` as the
function `prev`, computes row `i+1` pointwise (`dp[i+1][j]`), following the
recurrence of the source (`deletion / insertion / substitution`). -/
def levDProw (a b : List Char) (i : ℕ) (prev : ℕ → ℕ) : ℕ → ℕ
  | 0 => i + 1
  | j + 1 =>
    if a.getD i ' ' = b.getD j ' ' then prev j
    else min (prev (j + 1) + 1) (min (levDProw a b i prev j + 1) (prev j + 1))

/-- The full dynamic-programming matrix `dp[i][j]` of Levenshtein distance
between the first `i` characters of `a` and the first `j` characters of `b`
(`dp[i][0] = i`, `dp[0][j] = j`, and the three-way min recurrence). -/
def levDPfun (a b : List Char) : ℕ → ℕ → ℕ
  | 0 => fun j => j
  | i + 1 => levDProw a b i (levDPfun a b i)

/-- Inner loop of the two-row space optimization: consumes the remaining
suffix of the second string together with the matching suffix of the
previous row, threading the value just written to the current row
(`currRow[j-1]`) as `left`. -/
def levRow (c : Char) : List Char → List ℕ → ℕ → List ℕ
  | bj :: bs, p0 :: rest, left =>
    (if c = bj then p0 else min (rest.headD 0 + 1) (min (left + 1) (p0 + 1))) ::
      levRow c bs rest
        (if c = bj then p0 else min (rest.headD 0 + 1) (min (left + 1) (p0 + 1)))
  | _, _, _ => []

/-- Outer loop of the two-row computation: one iteration per character of
the first string, each building the current row `i :: levRow …` from the
previous row and swapping. -/
def levLoop (b : List Char) : List Char → ℕ → List ℕ → List ℕ
  | [], _, prev => prev
  | c :: cs, i, prev => levLoop b cs (i + 1) (i :: levRow c b prev i)

/-- The two-row Levenshtein distance: start from the row `[0, …, len2]` and
return the final row's last entry (`prevRow[len2]`). -/
def levTwoRow (a b : List Char) : ℕ :=
  (levLoop b a 1 (List.range (b.length + 1))).getD b.length 0

/-- Function `levenshteinDistance` of the main module: lowercase both strings, apply
the length-difference short-circuit (`lengthDiff > max * 0.5`, stated
exactly as `2 * lengthDiff > max` over the integers), otherwise run the
two-row dynamic program. -/
def levenshteinDistance (str1 str2 : String) : ℕ :=
  let s1 := lowerStr str1
  let s2 := lowerStr str2
  let len1 := s1.length
  let len2 := s2.length
  if 2 * (max len1 len2 - min len1 len2) > max len1 len2 then max len1 len2
  else levTwoRow s1 s2

/-- The full-matrix `levenshteinDistance` of the secondary algorithms file:
no short-circuit, the whole `(len1+1) × (len2+1)` matrix. -/
def levenshteinDistanceFullMatrix (str1 str2 : String) : ℕ :=
  let s1 := lowerStr str1
  let s2 := lowerStr str2
  levDPfun s1 s2 s1.length s2.length

/-- Similarity `levenshteinSimilarity = 1 - distance / max(len1, len2)`, and `1` when
both strings are empty. -/
def levenshteinSimilarity (str1 str2 : String) : ℚ :=
  let distance := levenshteinDistance str1 str2
  let maxLength := max str1.length str2.length
  if maxLength = 0 then 1 else 1 - (distance : ℚ) / (maxLength : ℚ)

/-- Comparator `genreSimilarity`: Jaccard overlap of the case-normalized genre label
sets, `0` when either list is empty. -/
def genreSimilarity (genres1 genres2 : List String) : ℚ :=
  if genres1.length = 0 ∨ genres2.length = 0 then 0
  else
    let set1 := (genres1.map strLower).toFinset
    let set2 := (genres2.map strLower).toFinset
    let intersection := set1 ∩ set2
    let union := set1 ∪ set2
    if union.card = 0 then 0 else (intersection.card : ℚ) / (union.card : ℚ)

/-- Comparator `ratingSimilarity = 1 - |r1 - r2| / 10`. -/
def ratingSimilarity (rating1 rating2 : ℚ) : ℚ := 1 - |rating1 - rating2| / 10

/-- Comparator `directorSimilarity`: 1 on a case-insensitive exact match when both
directors are present and non-empty (JS falsiness of `""`), else 0. -/
def directorSimilarity (director1 director2 : Option String) : ℚ :=
  match director1, director2 with
  | some d1, some d2 =>
    if d1 = "" ∨ d2 = "" then 0 else if strLower d1 = strLower d2 then 1 else 0
  | _, _ => 0

/-- Combination `combinedSimilarity = cosine * 0.6 + jaccard * 0.3 + levenshtein * 0.1`. -/
noncomputable def combinedSimilarity (str1 str2 : String) : ℝ :=
  let jaccard := jaccardSimilarity str1 str2
  let cosine := cosineSimilarity str1 str2
  let levenshtein := levenshteinSimilarity str1 str2
  cosine * 0.6 + (jaccard : ℝ) * 0.3 + (levenshtein : ℝ) * 0.1

/-- The movie record consumed by the scoring engine. -/
structure Movie where
  id : String
  title : String
  year : Int
  rating : ℚ
  genre : List String
  description : String
  director : Option String
deriving DecidableEq

/-- JS `genre.join(' ')`. -/
def joinSpace (l : List String) : String := String.intercalate " " l

/-- The comparison text of `calculateMovieSimilarity`: the description twice
plus the genre labels. -/
def movieText (movie : Movie) : String :=
  movie.description ++ " " ++ movie.description ++ " " ++ joinSpace movie.genre

/-- The algorithm dispatch of `calculateMovieSimilarity` (switch on the
algorithm tag, any unknown tag falling through to `combined`). -/
noncomputable def textSimilarity (movie : Movie) (query : String) (algorithm : String) : ℝ :=
  if algorithm = "jaccard" then (jaccardSimilarity (movieText movie) query : ℝ)
  else if algorithm = "cosine" then cosineSimilarity (movieText movie) query
  else if algorithm = "levenshtein" then (levenshteinSimilarity (movieText movie) query : ℝ)
  else combinedSimilarity (movieText movie) query

/-- Function `calculateMovieSimilarity`: text similarity alone without a reference
movie, and the fixed `0.365 / 0.25 / 0.35 / 0.035` weighting with one. -/
noncomputable def calculateMovieSimilarity (movie : Movie) (query : String)
    (algorithm : String) (referenceMovie : Option Movie) : ℝ :=
  match referenceMovie with
  | some ref =>
    textSimilarity movie query algorithm * 0.365 +
      (genreSimilarity movie.genre ref.genre : ℝ) * 0.25 +
      (ratingSimilarity movie.rating ref.rating : ℝ) * 0.35 +
      (directorSimilarity movie.director ref.director : ℝ) * 0.035
  | none => textSimilarity movie query algorithm

/-- The per-movie title-match cascade shared by `findClosestMatch` and
`searchMovies` (the two code blocks are literally identical): exact match,
substring containment both ways, then word overlap combined with
Levenshtein, falling back to Levenshtein alone. -/
def titleMatchScore (searchTerm : String) (title : String) : ℚ :=
  let searchLower := jsTrim (lowerStr searchTerm)
  let titleLower := lowerStr title
  if titleLower = searchLower then 1
  else if listHasSub titleLower searchLower then
    0.85 + ((searchLower.length : ℚ) / (titleLower.length : ℚ)) * 0.15
  else if listHasSub searchLower titleLower then 0.80
  else
    let searchWords := ((wordsBy isWS searchLower).filter (fun w => w.length > 2)).toFinset
    let titleWords := ((wordsBy isWS titleLower).filter (fun w => w.length > 2)).toFinset
    if 0 < searchWords.card ∧ 0 < titleWords.card then
      let matchingWords := (searchWords.filter (fun w => w ∈ titleWords)).card
      let wordOverlap := (matchingWords : ℚ) / ((max searchWords.card titleWords.card : ℕ) : ℚ)
      wordOverlap * 0.7 + levenshteinSimilarity title searchTerm * 0.3
    else levenshteinSimilarity title searchTerm

/-- One step of `findClosestMatch`'s loop: keep the incumbent unless the new
movie scores strictly higher. -/
def fcmStep (searchTerm : String) (acc : Option Movie × ℚ) (movie : Movie) :
    Option Movie × ℚ :=
  let similarity := titleMatchScore searchTerm movie.title
  if acc.2 < similarity then (some movie, similarity) else acc

/-- Resolver `findClosestMatch`: fold the cascade over the catalog starting from
`(null, 0)`, returning the best movie and its score. -/
def findClosestMatch (movies : List Movie) (searchTerm : String) : Option Movie × ℚ :=
  movies.foldl (fcmStep searchTerm) (none, 0)

/-- A movie together with its recommendation score. -/
structure ScoredMovie where
  movie : Movie
  similarityScore : ℝ

/-- A movie together with its search scores. -/
structure SearchScoredMovie where
  movie : Movie
  searchScore : ℝ
  titleScore : ℝ
  contentScore : ℝ

/-- Insertion step of the descending-score sort. -/
noncomputable def insertDesc {α : Type} (f : α → ℝ) (x : α) : List α → List α
  | [] => [x]
  | y :: ys => if f y ≤ f x then x :: y :: ys else y :: insertDesc f x ys

/-- Sort a list in descending order of `f` (the model of JS
`sort((a, b) => b.score - a.score)`). -/
noncomputable def sortDesc {α : Type} (f : α → ℝ) : List α → List α
  | [] => []
  | x :: xs => insertDesc f x (sortDesc f xs)

/-- The per-movie scoring step of `searchMovies`: title cascade score,
combined content similarity over description + genres, and the
`0.80 / 0.20` weighted overall score. -/
noncomputable def searchScoreOf (searchTerm : String) (movie : Movie) : SearchScoredMovie :=
  let titleScore : ℝ := (titleMatchScore searchTerm movie.title : ℝ)
  let contentText := movie.description ++ " " ++ joinSpace movie.genre
  let contentScore := combinedSimilarity contentText searchTerm
  ⟨movie, titleScore * 0.80 + contentScore * 0.20, titleScore, contentScore⟩

/-- Search `searchMovies`: score every movie (title cascade weighted 0.8, combined
content similarity weighted 0.2), drop scores `≤ 0.1`, sort descending,
truncate to `maxResults`. -/
noncomputable def searchMovies (movies : List Movie) (searchTerm : String)
    (maxResults : ℕ) : List SearchScoredMovie :=
  ((sortDesc (fun m => m.searchScore)
    ((movies.map (searchScoreOf searchTerm)).filter
      (fun m => decide ((0.1 : ℝ) < m.searchScore)))).take maxResults)

/-- The franchise word list of `getRecommendations`: split the selected
title on whitespace and colons, keep words of length ≥ 3 that are not pure
digit runs and not in the small exclusion list. -/
def refTitleWordsOf (selectedMovie : Movie) : List String :=
  ((wordsBy (fun c => isWS c || c = ':') (lowerStr selectedMovie.title)).map
      (fun w => String.mk w)).filter
    (fun w => decide (w.length ≥ 3) && !(w.toList.all (fun c => c.isDigit)) &&
      !(["the", "and", "part", "vol", "volume"].contains w))

/-- The per-candidate scoring step of `getRecommendations`: the base score
(reference-weighted `calculateMovieSimilarity` against the reference text
built from the selected movie's description and genres) plus the franchise
bonus (up to 0.25, proportional to how many reference title words occur in
the candidate's lowercased title).  The reference text and reference title
words depend only on the selected movie, so computing them here per
candidate is observationally the code's hoisted computation. -/
noncomputable def scoreCandidate (selectedMovie : Movie) (algorithm : String)
    (movie : Movie) : ScoredMovie :=
  let referenceText := selectedMovie.description ++ " " ++ joinSpace selectedMovie.genre
  let refTitleWords := refTitleWordsOf selectedMovie
  let baseScore := calculateMovieSimilarity movie referenceText algorithm (some selectedMovie)
  let matchingWords :=
    (refTitleWords.filter (fun w => listHasSub (lowerStr movie.title) w.toList)).length
  let franchiseBonus : ℝ :=
    if 0 < refTitleWords.length then
      if 0 < matchingWords then
        ((matchingWords : ℝ) / (refTitleWords.length : ℝ)) * 0.25
      else 0
    else 0
  ⟨movie, baseScore + franchiseBonus⟩

/-- The candidate filter of `getRecommendations`: movies sharing a genre
with the selected movie (always excluding the selected movie itself by id),
unless that leaves fewer than `2 * topN` movies, in which case every movie
except the selected one. -/
def candidatesOf (movies : List Movie) (selectedMovie : Movie) (topN : ℕ) : List Movie :=
  let sameGenreMovies := movies.filter (fun movie =>
    decide (movie.id ≠ selectedMovie.id) &&
      movie.genre.any (fun g => selectedMovie.genre.contains g))
  if sameGenreMovies.length ≥ topN * 2 then sameGenreMovies
  else movies.filter (fun movie => decide (movie.id ≠ selectedMovie.id))

/-- Ranker `getRecommendations`: filter candidates, score each candidate, sort
descending by final score, and take the first `topN`. -/
noncomputable def getRecommendations (movies : List Movie) (selectedMovie : Movie)
    (algorithm : String) (topN : ℕ) : List ScoredMovie :=
  (sortDesc (fun r => r.similarityScore)
    ((candidatesOf movies selectedMovie topN).map
      (scoreCandidate selectedMovie algorithm))).take topN

/-- Pointwise predicate over a list, stated without binders. -/
def allEntries {α : Type} (p : α → Prop) : List α → Prop
  | [] => True
  | x :: l => p x ∧ allEntries p l

/-- Concrete catalog entry whose title carries a trailing space, used to
probe the exact-match branch of the cascade. -/
def movieTrailingSpace : Movie := ⟨"m1", "x ", 2000, 5, [], "", none⟩

/-- Concrete catalog entry with title "Star Wars". -/
def movieStarWars : Movie := ⟨"m2", "Star Wars", 1977, 8.6, ["Sci-Fi"], "space opera", none⟩

/-- Concrete catalog entry with title "Inception". -/
def movieInception : Movie := ⟨"m3", "Inception", 2010, 8.8, ["Sci-Fi"], "dream heist", none⟩

/-! ### Levenshtein matrix lemmas -/

theorem levDPfun_zero_left (a b : List Char) (j : ℕ) : levDPfun a b 0 j = j := rfl

theorem levDPfun_zero_right (a b : List Char) (i : ℕ) : levDPfun a b i 0 = i := by
  cases i <;> rfl

theorem levDPfun_succ_succ (a b : List Char) (i j : ℕ) :
    levDPfun a b (i + 1) (j + 1) =
      if a.getD i ' ' = b.getD j ' ' then levDPfun a b i j
      else min (levDPfun a b i (j + 1) + 1)
        (min (levDPfun a b (i + 1) j + 1) (levDPfun a b i j + 1)) := rfl

theorem levDPfun_le_max (a b : List Char) : ∀ i j, levDPfun a b i j ≤ max i j := by
  intro i
  induction i with
  | zero => intro j; simp [levDPfun_zero_left]
  | succ i ih =>
    intro j
    induction j with
    | zero => simp [levDPfun_zero_right]
    | succ j ihj =>
      rw [levDPfun_succ_succ]
      split
      · exact le_trans (ih j) (by omega)
      · have h1 : levDPfun a b i j + 1 ≤ max i j + 1 := by
          have := ih j; omega
        have h2 : min (levDPfun a b i (j + 1) + 1)
            (min (levDPfun a b (i + 1) j + 1) (levDPfun a b i j + 1)) ≤
            levDPfun a b i j + 1 := le_trans (min_le_right _ _) (min_le_right _ _)
        omega

theorem levDPfun_self (a : List Char) : ∀ i, levDPfun a a i i = 0 := by
  intro i
  induction i with
  | zero => rfl
  | succ i ih => rw [levDPfun_succ_succ, if_pos rfl]; exact ih

theorem levDPfun_symm (a b : List Char) : ∀ i j, levDPfun a b i j = levDPfun b a j i := by
  intro i
  induction i with
  | zero => intro j; rw [levDPfun_zero_left, levDPfun_zero_right]
  | succ i ih =>
    intro j
    induction j with
    | zero => rw [levDPfun_zero_left, levDPfun_zero_right]
    | succ j ihj =>
      rw [levDPfun_succ_succ, levDPfun_succ_succ]
      by_cases h : a.getD i ' ' = b.getD j ' '
      · rw [if_pos h, if_pos h.symm, ih]
      · rw [if_neg h, if_neg (fun h' => h h'.symm), ih j, ih (j + 1), ihj]
        rw [min_left_comm]

theorem levDPfun_eq_zero (a b : List Char) :
    ∀ i j, i ≤ a.length → j ≤ b.length → levDPfun a b i j = 0 →
      i = j ∧ a.take i = b.take j := by
  intro i
  induction i with
  | zero =>
    intro j _ _ h
    rw [levDPfun_zero_left] at h
    subst h
    exact ⟨rfl, rfl⟩
  | succ i ih =>
    intro j hi hj h
    cases j with
    | zero => rw [levDPfun_zero_right] at h; omega
    | succ j =>
      rw [levDPfun_succ_succ] at h
      by_cases hc : a.getD i ' ' = b.getD j ' '
      · rw [if_pos hc] at h
        obtain ⟨hij, htake⟩ := ih j (by omega) (by omega) h
        subst hij
        refine ⟨rfl, ?_⟩
        have ha : i < a.length := by omega
        have hb : i < b.length := by omega
        rw [List.take_succ, List.take_succ, htake]
        congr 1
        rw [List.getElem?_eq_getElem ha, List.getElem?_eq_getElem hb]
        have := hc
        rw [List.getD_eq_getElem _ _ ha, List.getD_eq_getElem _ _ hb] at this
        simp [this]
      · rw [if_neg hc] at h
        omega

theorem headD_eq_getD {l : List ℕ} : l.headD 0 = l.getD 0 0 := by
  cases l <;> rfl

theorem levRow_spec (a b : List Char) (k : ℕ) :
    ∀ (bs : List Char) (j : ℕ), bs = b.drop j → j ≤ b.length →
    ∀ (ps : List ℕ), ps.length = b.length + 1 - j →
    (∀ t, j + t ≤ b.length → ps.getD t 0 = levDPfun a b k (j + t)) →
    ∀ (left : ℕ), left = levDPfun a b (k + 1) j →
    (levRow (a.getD k ' ') bs ps left).length = b.length - j ∧
    (∀ t, j + 1 + t ≤ b.length →
      (levRow (a.getD k ' ') bs ps left).getD t 0 = levDPfun a b (k + 1) (j + 1 + t)) := by
  intro bs
  induction bs with
  | nil =>
    intro j hdrop hj ps _ _ left _
    have hlen : b.length ≤ j := by
      by_contra hlt
      push_neg at hlt
      have := congrArg List.length hdrop
      simp [List.length_drop] at this
      omega
    constructor
    · simp [levRow]; omega
    · intro t ht; omega
  | cons bj bs' ih =>
    intro j hdrop hj ps hpslen hps left hleft
    have hjlt : j < b.length := by
      by_contra hge
      push_neg at hge
      rw [List.drop_eq_nil_of_le hge] at hdrop
      exact List.noConfusion hdrop
    have hdeq : b.drop j = b[j] :: b.drop (j + 1) := List.drop_eq_getElem_cons hjlt
    rw [hdeq] at hdrop
    have hbj : bj = b[j] := (List.cons_eq_cons.mp hdrop).1
    have hbs' : bs' = b.drop (j + 1) := (List.cons_eq_cons.mp hdrop).2
    have hbgetD : b.getD j ' ' = bj := by
      rw [hbj, List.getD_eq_getElem _ _ hjlt]
    obtain ⟨p0, rest, rfl⟩ : ∃ p0 rest, ps = p0 :: rest := by
      cases ps with
      | nil => simp at hpslen; omega
      | cons p0 rest => exact ⟨p0, rest, rfl⟩
    have hp0 : p0 = levDPfun a b k j := by
      have := hps 0 (by omega)
      simpa using this
    have hrest : rest.headD 0 = levDPfun a b k (j + 1) := by
      rw [headD_eq_getD]
      have := hps 1 (by omega)
      simpa using this
    have hv : (if a.getD k ' ' = bj then p0
        else min (rest.headD 0 + 1) (min (left + 1) (p0 + 1))) =
        levDPfun a b (k + 1) (j + 1) := by
      rw [levDPfun_succ_succ, hbgetD, hp0, hrest, hleft]
    have hrecur : levRow (a.getD k ' ') (bj :: bs') (p0 :: rest) left =
        (if a.getD k ' ' = bj then p0
          else min (rest.headD 0 + 1) (min (left + 1) (p0 + 1))) ::
        levRow (a.getD k ' ') bs' rest
          (if a.getD k ' ' = bj then p0
            else min (rest.headD 0 + 1) (min (left + 1) (p0 + 1))) := rfl
    have ihcall := ih (j + 1) hbs' (by omega) rest
      (by simp at hpslen ⊢; omega)
      (by
        intro t ht
        have := hps (t + 1) (by omega)
        have harith : j + (t + 1) = j + 1 + t := by omega
        rw [harith] at this
        simpa using this)
      (if a.getD k ' ' = bj then p0
        else min (rest.headD 0 + 1) (min (left + 1) (p0 + 1))) hv
    constructor
    · rw [hrecur]
      simp only [List.length_cons]
      rw [ihcall.1]
      omega
    · intro t ht
      rw [hrecur]
      cases t with
      | zero =>
        rw [List.getD_cons_zero, hv]
      | succ t =>
        rw [List.getD_cons_succ]
        have := ihcall.2 t (by omega)
        have harith : j + 1 + 1 + t = j + 1 + (t + 1) := by omega
        rw [harith] at this
        exact this

theorem levLoop_spec (a b : List Char) :
    ∀ (cs : List Char) (k : ℕ), cs = a.drop k → k ≤ a.length →
    ∀ (prev : List ℕ), prev.length = b.length + 1 →
    (∀ t, t ≤ b.length → prev.getD t 0 = levDPfun a b k t) →
    (∀ t, t ≤ b.length →
      (levLoop b cs (k + 1) prev).getD t 0 = levDPfun a b a.length t) := by
  intro cs
  induction cs with
  | nil =>
    intro k hdrop hk prev _ hprev t ht
    have hlen : a.length ≤ k := by
      by_contra hlt
      push_neg at hlt
      have := congrArg List.length hdrop
      simp [List.length_drop] at this
      omega
    have hkeq : k = a.length := le_antisymm hk hlen
    subst hkeq
    simpa [levLoop] using hprev t ht
  | cons c cs' ih =>
    intro k hdrop hk prev hprevlen hprev t ht
    have hklt : k < a.length := by
      by_contra hge
      push_neg at hge
      rw [List.drop_eq_nil_of_le hge] at hdrop
      exact List.noConfusion hdrop
    have hdeq : a.drop k = a[k] :: a.drop (k + 1) := List.drop_eq_getElem_cons hklt
    rw [hdeq] at hdrop
    have hc : c = a[k] := (List.cons_eq_cons.mp hdrop).1
    have hcs' : cs' = a.drop (k + 1) := (List.cons_eq_cons.mp hdrop).2
    have hcgetD : a.getD k ' ' = c := by
      rw [hc, List.getD_eq_getElem _ _ hklt]
    have hrowcall := levRow_spec a b k b 0 (by simp) (by omega) prev
      (by simpa using hprevlen)
      (by intro u hu; simpa using hprev u (by omega))
      (k + 1) (by rw [levDPfun_zero_right])
    have hloopstep : levLoop b (c :: cs') (k + 1) prev =
        levLoop b cs' (k + 1 + 1) ((k + 1) :: levRow c b prev (k + 1)) := rfl
    rw [hloopstep]
    apply ih (k + 1) hcs' (by omega) ((k + 1) :: levRow c b prev (k + 1))
    · simp only [List.length_cons]
      rw [← hcgetD, hrowcall.1]
      omega
    · intro u hu
      cases u with
      | zero =>
        rw [List.getD_cons_zero, levDPfun_zero_right]
      | succ u =>
        rw [List.getD_cons_succ, ← hcgetD]
        have := hrowcall.2 u (by omega)
        have harith : 0 + 1 + u = u + 1 := by omega
        rw [harith] at this
        exact this
    · exact ht

theorem levTwoRow_eq (a b : List Char) : levTwoRow a b = levDPfun a b a.length b.length := by
  unfold levTwoRow
  exact levLoop_spec a b a 0 (by simp) (by omega) (List.range (b.length + 1))
    (by simp)
    (by
      intro t ht
      rw [levDPfun_zero_left]
      have : (List.range (b.length + 1)).getD t 0 = t := by
        rw [List.getD_eq_getElem?_getD, List.getElem?_range (by omega)]
        rfl
      exact this)
    b.length le_rfl

theorem lowerStr_length (s : String) : (lowerStr s).length = s.length := by
  rw [lowerStr, List.length_map]
  rfl

theorem levenshteinDistance_def (str1 str2 : String) :
    levenshteinDistance str1 str2 =
      if 2 * (max (lowerStr str1).length (lowerStr str2).length -
          min (lowerStr str1).length (lowerStr str2).length) >
          max (lowerStr str1).length (lowerStr str2).length
      then max (lowerStr str1).length (lowerStr str2).length
      else levTwoRow (lowerStr str1) (lowerStr str2) := rfl

theorem levenshteinSimilarity_def (str1 str2 : String) :
    levenshteinSimilarity str1 str2 =
      if max str1.length str2.length = 0 then 1
      else 1 - (levenshteinDistance str1 str2 : ℚ) /
        ((max str1.length str2.length : ℕ) : ℚ) := rfl

theorem levenshteinDistance_le_max (str1 str2 : String) :
    levenshteinDistance str1 str2 ≤ max str1.length str2.length := by
  rw [levenshteinDistance_def]
  split
  · simp only [lowerStr_length]
    exact le_rfl
  · rw [levTwoRow_eq]
    have := levDPfun_le_max (lowerStr str1) (lowerStr str2)
      (lowerStr str1).length (lowerStr str2).length
    simpa only [lowerStr_length] using this

theorem levenshteinDistance_self (s : String) : levenshteinDistance s s = 0 := by
  rw [levenshteinDistance_def, if_neg (by omega), levTwoRow_eq]
  exact levDPfun_self _ _

theorem levenshteinDistance_symm (str1 str2 : String) :
    levenshteinDistance str1 str2 = levenshteinDistance str2 str1 := by
  rw [levenshteinDistance_def, levenshteinDistance_def,
    max_comm (lowerStr str2).length (lowerStr str1).length,
    min_comm (lowerStr str2).length (lowerStr str1).length]
  by_cases hg : 2 * (max (lowerStr str1).length (lowerStr str2).length -
      min (lowerStr str1).length (lowerStr str2).length) >
      max (lowerStr str1).length (lowerStr str2).length
  · rw [if_pos hg, if_pos hg]
  · rw [if_neg hg, if_neg hg, levTwoRow_eq, levTwoRow_eq, levDPfun_symm]

theorem levenshteinDistance_eq_zero (str1 str2 : String)
    (h : levenshteinDistance str1 str2 = 0) : lowerStr str1 = lowerStr str2 := by
  rw [levenshteinDistance_def] at h
  by_cases hg : 2 * (max (lowerStr str1).length (lowerStr str2).length -
      min (lowerStr str1).length (lowerStr str2).length) >
      max (lowerStr str1).length (lowerStr str2).length
  · rw [if_pos hg] at h
    have h1 : (lowerStr str1).length = 0 := by omega
    have h2 : (lowerStr str2).length = 0 := by omega
    rw [List.length_eq_zero.mp h1, List.length_eq_zero.mp h2]
  · rw [if_neg hg, levTwoRow_eq] at h
    obtain ⟨_, htake⟩ := levDPfun_eq_zero (lowerStr str1) (lowerStr str2)
      (lowerStr str1).length (lowerStr str2).length le_rfl le_rfl h
    rwa [List.take_length, List.take_length] at htake

/-! ### levenshteinSimilarity lemmas -/

theorem levenshteinSimilarity_nonneg (str1 str2 : String) :
    0 ≤ levenshteinSimilarity str1 str2 := by
  rw [levenshteinSimilarity_def]
  split
  · norm_num
  · rename_i hmax
    have hd := levenshteinDistance_le_max str1 str2
    have hmaxpos : (0 : ℚ) < ((max str1.length str2.length : ℕ) : ℚ) := by
      exact_mod_cast Nat.pos_of_ne_zero hmax
    have hdiv : (levenshteinDistance str1 str2 : ℚ) /
        ((max str1.length str2.length : ℕ) : ℚ) ≤ 1 := by
      rw [div_le_one hmaxpos]
      exact_mod_cast hd
    linarith

theorem levenshteinSimilarity_le_one (str1 str2 : String) :
    levenshteinSimilarity str1 str2 ≤ 1 := by
  rw [levenshteinSimilarity_def]
  split
  · norm_num
  · have hdiv : 0 ≤ (levenshteinDistance str1 str2 : ℚ) /
        ((max str1.length str2.length : ℕ) : ℚ) := by positivity
    linarith

theorem levenshteinSimilarity_self (s : String) : levenshteinSimilarity s s = 1 := by
  rw [levenshteinSimilarity_def]
  simp only [levenshteinDistance_self, Nat.cast_zero, zero_div, sub_zero]
  split <;> rfl

theorem levenshteinSimilarity_symm (str1 str2 : String) :
    levenshteinSimilarity str1 str2 = levenshteinSimilarity str2 str1 := by
  rw [levenshteinSimilarity_def, levenshteinSimilarity_def, levenshteinDistance_symm,
    max_comm str1.length str2.length]

theorem levenshteinSimilarity_eq_one (str1 str2 : String)
    (h : levenshteinSimilarity str1 str2 = 1) : lowerStr str1 = lowerStr str2 := by
  rw [levenshteinSimilarity_def] at h
  by_cases hmax : max str1.length str2.length = 0
  · have e1 : (lowerStr str1).length = 0 := by rw [lowerStr_length]; omega
    have e2 : (lowerStr str2).length = 0 := by rw [lowerStr_length]; omega
    rw [List.length_eq_zero.mp e1, List.length_eq_zero.mp e2]
  · rw [if_neg hmax] at h
    have hmaxq : ((max str1.length str2.length : ℕ) : ℚ) ≠ 0 := by
      exact_mod_cast hmax
    have hdivz : (levenshteinDistance str1 str2 : ℚ) /
        ((max str1.length str2.length : ℕ) : ℚ) = 0 := by linarith
    rcases div_eq_zero_iff.mp hdivz with hz | hz
    · exact levenshteinDistance_eq_zero str1 str2 (by exact_mod_cast hz)
    · exact absurd hz hmaxq

/-! ### Jaccard lemmas -/

theorem jaccardSimilarity_eq (str1 str2 : String) :
    jaccardSimilarity str1 str2 =
      (if (preprocessText str1).toFinset.card = 0 ∨ (preprocessText str2).toFinset.card = 0
      then 0
      else if (preprocessText str1).toFinset.card + (preprocessText str2).toFinset.card -
          ((preprocessText str1).toFinset.filter
            (fun w => w ∈ (preprocessText str2).toFinset)).card = 0 then 0
      else (((preprocessText str1).toFinset.filter
            (fun w => w ∈ (preprocessText str2).toFinset)).card : ℚ) /
        (((preprocessText str1).toFinset.card + (preprocessText str2).toFinset.card -
          ((preprocessText str1).toFinset.filter
            (fun w => w ∈ (preprocessText str2).toFinset)).card : ℕ) : ℚ)) := rfl

theorem jaccard_form_nonneg (A B : Finset String) :
    (0 : ℚ) ≤ (if A.card = 0 ∨ B.card = 0 then 0
      else if A.card + B.card - (A.filter (fun w => w ∈ B)).card = 0 then 0
      else ((A.filter (fun w => w ∈ B)).card : ℚ) /
        ((A.card + B.card - (A.filter (fun w => w ∈ B)).card : ℕ) : ℚ)) := by
  split
  · exact le_refl 0
  split
  · exact le_refl 0
  · positivity

theorem jaccard_form_le_one (A B : Finset String) :
    (if A.card = 0 ∨ B.card = 0 then 0
      else if A.card + B.card - (A.filter (fun w => w ∈ B)).card = 0 then 0
      else ((A.filter (fun w => w ∈ B)).card : ℚ) /
        ((A.card + B.card - (A.filter (fun w => w ∈ B)).card : ℕ) : ℚ)) ≤ 1 := by
  split
  · norm_num
  split
  · norm_num
  · rename_i hne hu
    have hiA : (A.filter (fun w => w ∈ B)).card ≤ A.card :=
      Finset.card_filter_le _ _
    have hiB : (A.filter (fun w => w ∈ B)).card ≤ B.card := by
      apply Finset.card_le_card
      intro w hw
      exact (Finset.mem_filter.mp hw).2
    have hle : (A.filter (fun w => w ∈ B)).card ≤
        A.card + B.card - (A.filter (fun w => w ∈ B)).card := by omega
    have hupos : (0 : ℚ) <
        ((A.card + B.card - (A.filter (fun w => w ∈ B)).card : ℕ) : ℚ) := by
      exact_mod_cast Nat.pos_of_ne_zero hu
    rw [div_le_one hupos]
    exact_mod_cast hle

theorem jaccardSimilarity_nonneg (str1 str2 : String) :
    0 ≤ jaccardSimilarity str1 str2 := by
  rw [jaccardSimilarity_eq]; exact jaccard_form_nonneg _ _

theorem jaccardSimilarity_le_one (str1 str2 : String) :
    jaccardSimilarity str1 str2 ≤ 1 := by
  rw [jaccardSimilarity_eq]; exact jaccard_form_le_one _ _

theorem filter_mem_card_comm (A B : Finset String) :
    (A.filter (fun w => w ∈ B)).card = (B.filter (fun w => w ∈ A)).card := by
  rw [Finset.filter_mem_eq_inter, Finset.filter_mem_eq_inter, Finset.inter_comm]

theorem jaccardSimilarity_symm (str1 str2 : String) :
    jaccardSimilarity str1 str2 = jaccardSimilarity str2 str1 := by
  rw [jaccardSimilarity_eq, jaccardSimilarity_eq,
    filter_mem_card_comm (preprocessText str2).toFinset (preprocessText str1).toFinset,
    Nat.add_comm (preprocessText str2).toFinset.card (preprocessText str1).toFinset.card]
  by_cases h : (preprocessText str1).toFinset.card = 0 ∨ (preprocessText str2).toFinset.card = 0
  · rw [if_pos h, if_pos h.symm]
  · rw [if_neg h, if_neg (show ¬((preprocessText str2).toFinset.card = 0 ∨
      (preprocessText str1).toFinset.card = 0) from fun hc => h hc.symm)]

theorem jaccardSimilarity_self (a : String) (h : preprocessText a ≠ []) :
    jaccardSimilarity a a = 1 := by
  rw [jaccardSimilarity_eq]
  have hA : (preprocessText a).toFinset.card ≠ 0 := by
    intro hc
    apply h
    have := Finset.card_eq_zero.mp hc
    simpa [List.toFinset_eq_empty_iff] using this
  have hfilter : ((preprocessText a).toFinset.filter
      (fun w => w ∈ (preprocessText a).toFinset)) = (preprocessText a).toFinset := by
    apply Finset.filter_true_of_mem
    intro w hw
    exact hw
  rw [if_neg (by tauto)]
  rw [hfilter]
  rw [if_neg (by omega)]
  have harith : (preprocessText a).toFinset.card + (preprocessText a).toFinset.card -
      (preprocessText a).toFinset.card = (preprocessText a).toFinset.card := by omega
  rw [harith]
  rw [div_self (by exact_mod_cast hA)]

/-! ### Cosine lemmas -/

theorem cosineSimilarity_eq (str1 str2 : String) :
    cosineSimilarity str1 str2 =
      (if (preprocessText str1).length = 0 ∨ (preprocessText str2).length = 0 then 0
      else if Real.sqrt ((∑ w ∈ (preprocessText str1).toFinset ∪ (preprocessText str2).toFinset,
            (preprocessText str1).count w * (preprocessText str1).count w : ℕ) : ℝ) = 0 ∨
          Real.sqrt ((∑ w ∈ (preprocessText str1).toFinset ∪ (preprocessText str2).toFinset,
            (preprocessText str2).count w * (preprocessText str2).count w : ℕ) : ℝ) = 0 then 0
      else ((∑ w ∈ (preprocessText str1).toFinset ∪ (preprocessText str2).toFinset,
            (preprocessText str1).count w * (preprocessText str2).count w : ℕ) : ℝ) /
        (Real.sqrt ((∑ w ∈ (preprocessText str1).toFinset ∪ (preprocessText str2).toFinset,
            (preprocessText str1).count w * (preprocessText str1).count w : ℕ) : ℝ) *
          Real.sqrt ((∑ w ∈ (preprocessText str1).toFinset ∪ (preprocessText str2).toFinset,
            (preprocessText str2).count w * (preprocessText str2).count w : ℕ) : ℝ))) := rfl

theorem cosine_form_nonneg (voc : Finset String) (c1 c2 : String → ℕ) :
    (0 : ℝ) ≤ (if Real.sqrt ((∑ w ∈ voc, c1 w * c1 w : ℕ) : ℝ) = 0 ∨
        Real.sqrt ((∑ w ∈ voc, c2 w * c2 w : ℕ) : ℝ) = 0 then 0
      else ((∑ w ∈ voc, c1 w * c2 w : ℕ) : ℝ) /
        (Real.sqrt ((∑ w ∈ voc, c1 w * c1 w : ℕ) : ℝ) *
          Real.sqrt ((∑ w ∈ voc, c2 w * c2 w : ℕ) : ℝ))) := by
  split
  · exact le_refl 0
  · apply div_nonneg
    · positivity
    · exact mul_nonneg (Real.sqrt_nonneg _) (Real.sqrt_nonneg _)

theorem cosine_form_le_one (voc : Finset String) (c1 c2 : String → ℕ) :
    (if Real.sqrt ((∑ w ∈ voc, c1 w * c1 w : ℕ) : ℝ) = 0 ∨
        Real.sqrt ((∑ w ∈ voc, c2 w * c2 w : ℕ) : ℝ) = 0 then 0
      else ((∑ w ∈ voc, c1 w * c2 w : ℕ) : ℝ) /
        (Real.sqrt ((∑ w ∈ voc, c1 w * c1 w : ℕ) : ℝ) *
          Real.sqrt ((∑ w ∈ voc, c2 w * c2 w : ℕ) : ℝ))) ≤ 1 := by
  split
  · norm_num
  · rename_i hm
    push_neg at hm
    obtain ⟨hm1, hm2⟩ := hm
    have h1pos : 0 < Real.sqrt ((∑ w ∈ voc, c1 w * c1 w : ℕ) : ℝ) :=
      lt_of_le_of_ne (Real.sqrt_nonneg _) (Ne.symm hm1)
    have h2pos : 0 < Real.sqrt ((∑ w ∈ voc, c2 w * c2 w : ℕ) : ℝ) :=
      lt_of_le_of_ne (Real.sqrt_nonneg _) (Ne.symm hm2)
    rw [div_le_one (mul_pos h1pos h2pos)]
    have hcs := Real.sum_mul_le_sqrt_mul_sqrt voc
      (fun w => (c1 w : ℝ)) (fun w => (c2 w : ℝ))
    have hdot : ((∑ w ∈ voc, c1 w * c2 w : ℕ) : ℝ) =
        ∑ w ∈ voc, (c1 w : ℝ) * (c2 w : ℝ) := by push_cast; rfl
    have hsq1 : ((∑ w ∈ voc, c1 w * c1 w : ℕ) : ℝ) =
        ∑ w ∈ voc, (c1 w : ℝ) ^ 2 := by push_cast; ring_nf
    have hsq2 : ((∑ w ∈ voc, c2 w * c2 w : ℕ) : ℝ) =
        ∑ w ∈ voc, (c2 w : ℝ) ^ 2 := by push_cast; ring_nf
    rw [hdot, hsq1, hsq2]
    exact hcs

theorem cosineSimilarity_nonneg (str1 str2 : String) :
    0 ≤ cosineSimilarity str1 str2 := by
  rw [cosineSimilarity_eq]
  split
  · exact le_refl 0
  · exact cosine_form_nonneg _ _ _

theorem cosineSimilarity_le_one (str1 str2 : String) :
    cosineSimilarity str1 str2 ≤ 1 := by
  rw [cosineSimilarity_eq]
  split
  · norm_num
  · exact cosine_form_le_one _ _ _

theorem cosineSimilarity_symm (str1 str2 : String) :
    cosineSimilarity str1 str2 = cosineSimilarity str2 str1 := by
  rw [cosineSimilarity_eq, cosineSimilarity_eq]
  by_cases h : (preprocessText str1).length = 0 ∨ (preprocessText str2).length = 0
  · rw [if_pos h, if_pos h.symm]
  · rw [if_neg h, if_neg (show ¬((preprocessText str2).length = 0 ∨
      (preprocessText str1).length = 0) from fun hc => h hc.symm)]
    rw [Finset.union_comm (preprocessText str2).toFinset (preprocessText str1).toFinset]
    have hdot : (∑ w ∈ (preprocessText str1).toFinset ∪ (preprocessText str2).toFinset,
        (preprocessText str2).count w * (preprocessText str1).count w) =
        (∑ w ∈ (preprocessText str1).toFinset ∪ (preprocessText str2).toFinset,
        (preprocessText str1).count w * (preprocessText str2).count w) :=
      Finset.sum_congr rfl (fun w _ => Nat.mul_comm _ _)
    rw [hdot]
    generalize (∑ w ∈ (preprocessText str1).toFinset ∪ (preprocessText str2).toFinset,
      (preprocessText str1).count w * (preprocessText str2).count w : ℕ) = D
    generalize (∑ w ∈ (preprocessText str1).toFinset ∪ (preprocessText str2).toFinset,
      (preprocessText str1).count w * (preprocessText str1).count w : ℕ) = A
    generalize (∑ w ∈ (preprocessText str1).toFinset ∪ (preprocessText str2).toFinset,
      (preprocessText str2).count w * (preprocessText str2).count w : ℕ) = B
    by_cases hm : Real.sqrt (A : ℝ) = 0 ∨ Real.sqrt (B : ℝ) = 0
    · rw [if_pos hm, if_pos (Or.symm hm)]
    · rw [if_neg hm, if_neg (show ¬(Real.sqrt (B : ℝ) = 0 ∨ Real.sqrt (A : ℝ) = 0) from
        fun hc => hm (Or.symm hc))]
      ring

/-! ### Substring and trim lemmas -/

theorem listStartsWith_iff : ∀ (s h : List Char),
    listStartsWith h s = true ↔ ∃ r, h = s ++ r := by
  intro s
  induction s with
  | nil =>
    intro h
    cases h <;> simp [listStartsWith]
  | cons b bs ih =>
    intro h
    cases h with
    | nil => simp [listStartsWith]
    | cons a as =>
      simp only [listStartsWith, Bool.and_eq_true, decide_eq_true_eq, ih as,
        List.cons_append, List.cons_eq_cons]
      constructor
      · rintro ⟨rfl, r, rfl⟩
        exact ⟨r, rfl, rfl⟩
      · rintro ⟨r, rfl, rfl⟩
        exact ⟨rfl, r, rfl⟩

theorem listHasSub_iff : ∀ (hay sub : List Char),
    listHasSub hay sub = true ↔ ∃ pre rest, hay = pre ++ sub ++ rest := by
  intro hay
  induction hay with
  | nil =>
    intro sub
    simp only [listHasSub, List.isEmpty_iff]
    constructor
    · rintro rfl
      exact ⟨[], [], rfl⟩
    · rintro ⟨pre, rest, hp⟩
      rcases List.append_eq_nil.mp (List.append_eq_nil.mp hp.symm).1 with ⟨_, h2⟩
      exact h2
  | cons c t ih =>
    intro sub
    simp only [listHasSub, Bool.or_eq_true, listStartsWith_iff, ih]
    constructor
    · rintro (⟨r, hr⟩ | ⟨pre, rest, hp⟩)
      · exact ⟨[], r, by simpa using hr⟩
      · exact ⟨c :: pre, rest, by simp [hp]⟩
    · rintro ⟨pre, rest, hp⟩
      cases pre with
      | nil =>
        left
        exact ⟨rest, by simpa using hp⟩
      | cons p ps =>
        right
        rw [List.cons_append, List.cons_append, List.cons_eq_cons] at hp
        exact ⟨ps, rest, hp.2⟩

theorem listHasSub_nil (hay : List Char) : listHasSub hay [] = true := by
  cases hay <;> simp [listHasSub, listStartsWith, List.isEmpty_iff]

theorem jsTrim_decomp (s : List Char) :
    s = (s.takeWhile isWS ++ jsTrim s) ++
      ((s.dropWhile isWS).reverse.takeWhile isWS).reverse := by
  conv_lhs => rw [← List.takeWhile_append_dropWhile isWS s]
  rw [List.append_assoc]
  congr 1
  conv_lhs => rw [← List.reverse_reverse (s.dropWhile isWS),
    ← List.takeWhile_append_dropWhile isWS (s.dropWhile isWS).reverse]
  rw [List.reverse_append]
  rfl

theorem listHasSub_jsTrim (s : List Char) : listHasSub s (jsTrim s) = true := by
  rw [listHasSub_iff]
  refine ⟨s.takeWhile isWS, ((s.dropWhile isWS).reverse.takeWhile isWS).reverse, ?_⟩
  conv_lhs => rw [jsTrim_decomp s]

theorem jsTrim_eq_nil {s : List Char} (h : ∀ c ∈ s, isWS c = true) : jsTrim s = [] := by
  have hdrop : s.dropWhile isWS = [] := List.dropWhile_eq_nil_iff.mpr h
  simp [jsTrim, hdrop]

theorem isWS_toLower {c : Char} (h : isWS c = true) : Char.toLower c = c := by
  have hcases : c = ' ' ∨ c = '\t' ∨ c = '\r' ∨ c = '\n' := by
    simpa [isWS, Char.isWhitespace, Bool.or_eq_true, decide_eq_true_eq, or_assoc] using h
  rcases hcases with rfl | rfl | rfl | rfl <;> decide

theorem lowerStr_ws {s : String} (h : ∀ c ∈ s.toList, isWS c = true) :
    ∀ c ∈ lowerStr s, isWS c = true := by
  intro c hc
  rw [lowerStr, List.mem_map] at hc
  obtain ⟨c', hc', rfl⟩ := hc
  rw [isWS_toLower (h c' hc')]
  exact h c' hc'

theorem listHasSub_length {hay sub : List Char} (h : listHasSub hay sub = true) :
    sub.length ≤ hay.length := by
  obtain ⟨pre, rest, rfl⟩ := (listHasSub_iff hay sub).mp h
  simp
  omega

theorem listHasSub_eq_of_length {hay sub : List Char} (h : listHasSub hay sub = true)
    (hlen : sub.length = hay.length) : hay = sub := by
  obtain ⟨pre, rest, rfl⟩ := (listHasSub_iff hay sub).mp h
  simp at hlen
  have hpre : pre = [] := List.length_eq_zero.mp (by omega)
  have hrest : rest = [] := List.length_eq_zero.mp (by omega)
  simp [hpre, hrest]

/-! ### Title-match cascade lemmas -/

theorem titleMatchScore_eq (searchTerm title : String) :
    ∀ (S T : List Char) (sw tw : Finset (List Char)),
      S = jsTrim (lowerStr searchTerm) → T = lowerStr title →
      sw = ((wordsBy isWS S).filter (fun w => w.length > 2)).toFinset →
      tw = ((wordsBy isWS T).filter (fun w => w.length > 2)).toFinset →
      titleMatchScore searchTerm title =
        (if T = S then 1
        else if listHasSub T S then 0.85 + ((S.length : ℚ) / (T.length : ℚ)) * 0.15
        else if listHasSub S T then 0.80
        else if 0 < sw.card ∧ 0 < tw.card then
          ((sw.filter (fun w => w ∈ tw)).card : ℚ) /
            ((max sw.card tw.card : ℕ) : ℚ) * 0.7 +
            levenshteinSimilarity title searchTerm * 0.3
        else levenshteinSimilarity title searchTerm) := by
  intro S T sw tw hS hT hsw htw
  subst hS
  subst hT
  subst hsw
  subst htw
  rfl

theorem sub_branch_lt_one (S T : List Char) (h1 : ¬ T = S)
    (h2 : listHasSub T S = true) :
    0.85 + ((S.length : ℚ) / (T.length : ℚ)) * 0.15 < 1 := by
  have hlen : S.length ≤ T.length := listHasSub_length h2
  have hlt : S.length < T.length := by
    rcases Nat.lt_or_ge S.length T.length with hl | hg
    · exact hl
    · exact absurd (listHasSub_eq_of_length h2 (by omega)) h1
  have hpos : (0 : ℚ) < (T.length : ℚ) := by
    exact_mod_cast Nat.lt_of_le_of_lt (Nat.zero_le _) hlt
  have hr : ((S.length : ℚ) / (T.length : ℚ)) < 1 := by
    rw [div_lt_one hpos]
    exact_mod_cast hlt
  have hr0 : (0 : ℚ) ≤ ((S.length : ℚ) / (T.length : ℚ)) := by positivity
  nlinarith

theorem overlap_nonneg (sw tw : Finset (List Char)) :
    0 ≤ ((sw.filter (fun w => w ∈ tw)).card : ℚ) /
      ((max sw.card tw.card : ℕ) : ℚ) := by positivity

theorem overlap_le_one (sw tw : Finset (List Char)) (hc : 0 < sw.card ∧ 0 < tw.card) :
    ((sw.filter (fun w => w ∈ tw)).card : ℚ) /
      ((max sw.card tw.card : ℕ) : ℚ) ≤ 1 := by
  have hi : (sw.filter (fun w => w ∈ tw)).card ≤ max sw.card tw.card :=
    le_trans (Finset.card_filter_le _ _) (le_max_left _ _)
  have hmaxpos : (0 : ℚ) < ((max sw.card tw.card : ℕ) : ℚ) := by
    have : 0 < max sw.card tw.card := by omega
    exact_mod_cast this
  rw [div_le_one hmaxpos]
  exact_mod_cast hi

theorem lev_branch_lt_one (searchTerm title : String)
    (h2 : ¬ listHasSub (lowerStr title) (jsTrim (lowerStr searchTerm)) = true) :
    levenshteinSimilarity title searchTerm < 1 := by
  refine lt_of_le_of_ne (levenshteinSimilarity_le_one title searchTerm) ?_
  intro hl
  have heq := levenshteinSimilarity_eq_one title searchTerm hl
  apply h2
  rw [heq]
  exact listHasSub_jsTrim (lowerStr searchTerm)

theorem word_branch_lt_one (searchTerm title : String)
    (h2 : ¬ listHasSub (lowerStr title) (jsTrim (lowerStr searchTerm)) = true)
    (ov : ℚ) (hov0 : 0 ≤ ov) (hov1 : ov ≤ 1) :
    ov * 0.7 + levenshteinSimilarity title searchTerm * 0.3 < 1 := by
  have hlev0 : 0 ≤ levenshteinSimilarity title searchTerm :=
    levenshteinSimilarity_nonneg title searchTerm
  have hlevlt := lev_branch_lt_one searchTerm title h2
  nlinarith

theorem titleMatchScore_le_one (searchTerm title : String) :
    titleMatchScore searchTerm title ≤ 1 := by
  rw [titleMatchScore_eq searchTerm title _ _ _ _ rfl rfl rfl rfl]
  split
  · exact le_refl 1
  · rename_i h1
    split
    · rename_i h2
      exact le_of_lt (sub_branch_lt_one _ _ h1 h2)
    · rename_i h2
      split
      · norm_num
      · split
        · rename_i h3 hc
          exact le_of_lt (word_branch_lt_one searchTerm title h2 _
            (overlap_nonneg _ _) (overlap_le_one _ _ hc))
        · exact le_of_lt (lev_branch_lt_one searchTerm title h2)

theorem titleMatchScore_eq_one_iff (searchTerm title : String) :
    titleMatchScore searchTerm title = 1 ↔
      lowerStr title = jsTrim (lowerStr searchTerm) := by
  rw [titleMatchScore_eq searchTerm title _ _ _ _ rfl rfl rfl rfl]
  split
  · rename_i h1
    exact iff_of_true rfl h1
  · rename_i h1
    split
    · rename_i h2
      exact iff_of_false (ne_of_lt (sub_branch_lt_one _ _ h1 h2)) h1
    · rename_i h2
      split
      · exact iff_of_false (by norm_num) h1
      · split
        · rename_i h3 hc
          exact iff_of_false (ne_of_lt (word_branch_lt_one searchTerm title h2 _
            (overlap_nonneg _ _) (overlap_le_one _ _ hc))) h1
        · exact iff_of_false (ne_of_lt (lev_branch_lt_one searchTerm title h2)) h1

theorem titleMatchScore_nonneg (searchTerm title : String) :
    0 ≤ titleMatchScore searchTerm title := by
  rw [titleMatchScore_eq searchTerm title _ _ _ _ rfl rfl rfl rfl]
  split
  · norm_num
  split
  · have : (0 : ℚ) ≤ ((jsTrim (lowerStr searchTerm)).length : ℚ) /
        ((lowerStr title).length : ℚ) := by positivity
    nlinarith
  split
  · norm_num
  split
  · have hov := overlap_nonneg (((wordsBy isWS (jsTrim (lowerStr searchTerm))).filter
      (fun w => w.length > 2)).toFinset)
      (((wordsBy isWS (lowerStr title)).filter (fun w => w.length > 2)).toFinset)
    have hlev0 : 0 ≤ levenshteinSimilarity title searchTerm :=
      levenshteinSimilarity_nonneg title searchTerm
    nlinarith
  · exact levenshteinSimilarity_nonneg title searchTerm

theorem titleMatchScore_ws (searchTerm title : String)
    (hws : ∀ c ∈ searchTerm.toList, isWS c = true) (ht : lowerStr title ≠ []) :
    titleMatchScore searchTerm title = 0.85 := by
  have hS : jsTrim (lowerStr searchTerm) = [] := jsTrim_eq_nil (lowerStr_ws hws)
  rw [titleMatchScore_eq searchTerm title _ _ _ _ rfl rfl rfl rfl, hS]
  rw [if_neg ht, if_pos (listHasSub_nil (lowerStr title))]
  norm_num

/-! ### findClosestMatch fold lemmas -/

theorem lowerStr_ne_nil {s : String} (h : s ≠ "") : lowerStr s ≠ [] := by
  intro hc
  apply h
  rw [lowerStr] at hc
  have htl : s.toList = [] := List.map_eq_nil_iff.mp hc
  cases s with
  | mk data =>
    have hd : data = [] := by simpa [String.toList] using htl
    rw [hd]

theorem fcmStep_le_one (searchTerm : String) (acc : Option Movie × ℚ) (movie : Movie)
    (h : acc.2 ≤ 1) : (fcmStep searchTerm acc movie).2 ≤ 1 := by
  rw [fcmStep]
  split
  · exact titleMatchScore_le_one searchTerm movie.title
  · exact h

theorem fcm_fold_exact (searchTerm : String) :
    ∀ (l : List Movie) (acc : Option Movie × ℚ), acc.2 ≤ 1 →
      (acc.2 = 1 → ∃ m, acc.1 = some m ∧ lowerStr m.title = jsTrim (lowerStr searchTerm)) →
      ((∃ m ∈ l, lowerStr m.title = jsTrim (lowerStr searchTerm)) ∨ acc.2 = 1) →
      (List.foldl (fcmStep searchTerm) acc l).2 = 1 ∧
      ∃ m, (List.foldl (fcmStep searchTerm) acc l).1 = some m ∧
        lowerStr m.title = jsTrim (lowerStr searchTerm) := by
  intro l
  induction l with
  | nil =>
    intro acc hle hgood hex
    rcases hex with ⟨m, hm, _⟩ | h1
    · exact absurd hm (List.not_mem_nil m)
    · exact ⟨h1, hgood h1⟩
  | cons x l ih =>
    intro acc hle hgood hex
    rw [List.foldl_cons]
    apply ih (fcmStep searchTerm acc x) (fcmStep_le_one searchTerm acc x hle)
    · intro h1
      rw [fcmStep] at h1 ⊢
      by_cases hup : acc.2 < titleMatchScore searchTerm x.title
      · rw [if_pos hup] at h1 ⊢
        refine ⟨x, rfl, ?_⟩
        exact (titleMatchScore_eq_one_iff searchTerm x.title).mp h1
      · rw [if_neg hup] at h1 ⊢
        exact hgood h1
    · rcases hex with ⟨m, hm, hmt⟩ | h1
      · rcases List.mem_cons.mp hm with rfl | hml
        · right
          have hsc : titleMatchScore searchTerm m.title = 1 :=
            (titleMatchScore_eq_one_iff searchTerm m.title).mpr hmt
          rw [fcmStep, hsc]
          split
          · rfl
          · rename_i hnlt
            have : acc.2 = 1 := le_antisymm hle (by push_neg at hnlt; exact hnlt)
            exact this
        · left
          exact ⟨m, hml, hmt⟩
      · right
        rw [fcmStep]
        split
        · rename_i hlt
          rw [h1] at hlt
          exact absurd (lt_of_lt_of_le hlt (titleMatchScore_le_one searchTerm x.title))
            (lt_irrefl 1)
        · exact h1

theorem fcm_fold_no_update (searchTerm : String) :
    ∀ (l : List Movie) (acc : Option Movie × ℚ),
      (∀ m ∈ l, ¬ acc.2 < titleMatchScore searchTerm m.title) →
      List.foldl (fcmStep searchTerm) acc l = acc := by
  intro l
  induction l with
  | nil => intro acc _; rfl
  | cons x l ih =>
    intro acc h
    rw [List.foldl_cons]
    have hstep : fcmStep searchTerm acc x = acc := by
      rw [fcmStep, if_neg (h x (List.mem_cons_self x l))]
    rw [hstep]
    exact ih acc (fun m hm => h m (List.mem_cons_of_mem x hm))

/-! ### Descending sort lemmas -/

theorem mem_insertDesc {α : Type} (f : α → ℝ) (x : α) :
    ∀ (l : List α) (a : α), a ∈ insertDesc f x l ↔ a = x ∨ a ∈ l := by
  intro l
  induction l with
  | nil => intro a; simp [insertDesc]
  | cons y ys ih =>
    intro a
    rw [insertDesc]
    split
    · simp
    · simp only [List.mem_cons, ih a]
      tauto

theorem mem_sortDesc {α : Type} (f : α → ℝ) :
    ∀ (l : List α) (a : α), a ∈ sortDesc f l ↔ a ∈ l := by
  intro l
  induction l with
  | nil => intro a; simp [sortDesc]
  | cons x xs ih =>
    intro a
    rw [sortDesc, mem_insertDesc]
    simp only [List.mem_cons, ih a]

theorem length_insertDesc {α : Type} (f : α → ℝ) (x : α) :
    ∀ (l : List α), (insertDesc f x l).length = l.length + 1 := by
  intro l
  induction l with
  | nil => rfl
  | cons y ys ih =>
    rw [insertDesc]
    split
    · simp
    · simp [ih]

theorem length_sortDesc {α : Type} (f : α → ℝ) :
    ∀ (l : List α), (sortDesc f l).length = l.length := by
  intro l
  induction l with
  | nil => rfl
  | cons x xs ih =>
    rw [sortDesc, length_insertDesc, ih]
    rfl

theorem sorted_insertDesc {α : Type} (f : α → ℝ) (x : α) :
    ∀ (l : List α), List.Sorted (fun a b => f b ≤ f a) l →
      List.Sorted (fun a b => f b ≤ f a) (insertDesc f x l) := by
  intro l
  induction l with
  | nil => intro _; simp [insertDesc]
  | cons y ys ih =>
    intro h
    rw [List.sorted_cons] at h
    obtain ⟨hy, hys⟩ := h
    rw [insertDesc]
    split
    · rename_i hxy
      rw [List.sorted_cons]
      refine ⟨?_, (List.sorted_cons).mpr ⟨hy, hys⟩⟩
      intro b hb
      rcases List.mem_cons.mp hb with rfl | hbys
      · exact hxy
      · exact le_trans (hy b hbys) hxy
    · rename_i hxy
      rw [List.sorted_cons]
      refine ⟨?_, ih hys⟩
      intro b hb
      rcases (mem_insertDesc f x ys b).mp hb with rfl | hbys
      · exact le_of_lt (lt_of_not_le hxy)
      · exact hy b hbys

theorem sorted_sortDesc {α : Type} (f : α → ℝ) :
    ∀ (l : List α), List.Sorted (fun a b => f b ≤ f a) (sortDesc f l) := by
  intro l
  induction l with
  | nil => simp [sortDesc]
  | cons x xs ih => exact sorted_insertDesc f x (sortDesc f xs) ih

/-! ### allEntries lemmas -/

theorem allEntries_iff {α : Type} (p : α → Prop) :
    ∀ (l : List α), allEntries p l ↔ ∀ x ∈ l, p x := by
  intro l
  induction l with
  | nil => simp [allEntries]
  | cons x xs ih =>
    rw [allEntries, ih]
    constructor
    · rintro ⟨hx, hxs⟩ b hb
      rcases List.mem_cons.mp hb with rfl | hbxs
      · exact hx
      · exact hxs b hbxs
    · intro h
      exact ⟨h x (List.mem_cons_self x xs), fun b hb => h b (List.mem_cons_of_mem x hb)⟩

/-! ### Claim theorems -/

theorem mem_candidatesOf {movies : List Movie} {sel : Movie} {topN : ℕ} {m : Movie}
    (h : m ∈ candidatesOf movies sel topN) : m.id ≠ sel.id := by
  have heq : candidatesOf movies sel topN =
      if (movies.filter (fun movie => decide (movie.id ≠ sel.id) &&
          movie.genre.any (fun g => sel.genre.contains g))).length ≥ topN * 2
      then movies.filter (fun movie => decide (movie.id ≠ sel.id) &&
        movie.genre.any (fun g => sel.genre.contains g))
      else movies.filter (fun movie => decide (movie.id ≠ sel.id)) := rfl
  rw [heq] at h
  split at h
  · have hp := (List.mem_filter.mp h).2
    simp only [Bool.and_eq_true, decide_eq_true_eq] at hp
    exact hp.1
  · have hp := (List.mem_filter.mp h).2
    simpa using hp

/-- C1: for every catalog, selected movie, algorithm choice and `topN`,
`getRecommendations` returns no entry whose identifier equals the selected
movie's identifier, at most `topN` entries, and the entries sorted in
descending order of the final `similarityScore` (base score plus franchise
bonus). -/
theorem claim_C1_recommendations_exclude_self_bounded_sorted
    (movies : List Movie) (selectedMovie : Movie) (algorithm : String) (topN : ℕ) :
    allEntries (fun r => r.movie.id ≠ selectedMovie.id)
      (getRecommendations movies selectedMovie algorithm topN) ∧
    (getRecommendations movies selectedMovie algorithm topN).length ≤ topN ∧
    List.Sorted (fun a b => b.similarityScore ≤ a.similarityScore)
      (getRecommendations movies selectedMovie algorithm topN) := by
  refine ⟨?_, ?_, ?_⟩
  · rw [allEntries_iff]
    intro r hr
    rw [getRecommendations] at hr
    have h1 := List.take_subset _ _ hr
    rw [mem_sortDesc] at h1
    obtain ⟨m, hm, rfl⟩ := List.mem_map.mp h1
    have hmovie : (scoreCandidate selectedMovie algorithm m).movie = m := rfl
    rw [hmovie]
    exact mem_candidatesOf hm
  · rw [getRecommendations, List.length_take]
    omega
  · rw [getRecommendations]
    exact List.Pairwise.sublist (List.take_sublist _ _)
      (sorted_sortDesc (fun r : ScoredMovie => r.similarityScore) _)

/-- C2: the three text similarity primitives each return a value in the
closed interval `[0, 1]` for all input strings. -/
theorem claim_C2_similarity_range (a b : String) :
    (0 ≤ jaccardSimilarity a b ∧ jaccardSimilarity a b ≤ 1) ∧
    (0 ≤ cosineSimilarity a b ∧ cosineSimilarity a b ≤ 1) ∧
    (0 ≤ levenshteinSimilarity a b ∧ levenshteinSimilarity a b ≤ 1) :=
  ⟨⟨jaccardSimilarity_nonneg a b, jaccardSimilarity_le_one a b⟩,
   ⟨cosineSimilarity_nonneg a b, cosineSimilarity_le_one a b⟩,
   ⟨levenshteinSimilarity_nonneg a b, levenshteinSimilarity_le_one a b⟩⟩

/-- C3: with a reference movie supplied, `calculateMovieSimilarity` returns
exactly `0.365 · text + 0.25 · genre + 0.35 · rating + 0.035 · director`;
with no reference movie it returns the text similarity alone. -/
theorem claim_C3_reference_weighting (movie : Movie) (query : String)
    (algorithm : String) (ref : Movie) :
    calculateMovieSimilarity movie query algorithm (some ref) =
      0.365 * textSimilarity movie query algorithm +
      0.25 * (genreSimilarity movie.genre ref.genre : ℝ) +
      0.35 * (ratingSimilarity movie.rating ref.rating : ℝ) +
      0.035 * (directorSimilarity movie.director ref.director : ℝ) ∧
    calculateMovieSimilarity movie query algorithm none =
      textSimilarity movie query algorithm := by
  constructor
  · have h : calculateMovieSimilarity movie query algorithm (some ref) =
        textSimilarity movie query algorithm * 0.365 +
        (genreSimilarity movie.genre ref.genre : ℝ) * 0.25 +
        (ratingSimilarity movie.rating ref.rating : ℝ) * 0.35 +
        (directorSimilarity movie.director ref.director : ℝ) * 0.035 := rfl
    rw [h]
    ring
  · rfl

/-- C4: `combinedSimilarity` is exactly the weighted sum
`0.6 · cosine + 0.3 · jaccard + 0.1 · levenshtein`, and the weights sum
to 1. -/
theorem claim_C4_combined_weights (a b : String) :
    combinedSimilarity a b = 0.6 * cosineSimilarity a b +
      0.3 * (jaccardSimilarity a b : ℝ) + 0.1 * (levenshteinSimilarity a b : ℝ) ∧
    (0.6 : ℝ) + 0.3 + 0.1 = 1 := by
  constructor
  · have h : combinedSimilarity a b = cosineSimilarity a b * 0.6 +
        (jaccardSimilarity a b : ℝ) * 0.3 + (levenshteinSimilarity a b : ℝ) * 0.1 := rfl
    rw [h]
    ring
  · norm_num

/-- C5 (counterexample): on the input pair `("a", "abc")` the length-difference
short-circuit of the two-row `levenshteinDistance` fires and returns 3, while
the full-matrix computation returns the true distance 2, so the two functions
are not equal on every pair of input strings. -/
theorem claim_C5_counterexample :
    levenshteinDistance "a" "abc" = 3 ∧ levenshteinDistanceFullMatrix "a" "abc" = 2 ∧
    levenshteinDistance "a" "abc" ≠ levenshteinDistanceFullMatrix "a" "abc" :=
  ⟨by decide, by decide, by decide⟩

/-- C5 (amended): whenever the length-difference short-circuit does not fire
(`2 · |len1 − len2| ≤ max(len1, len2)`), the space-optimized two-row
`levenshteinDistance` returns the same value as the full-matrix
dynamic-programming computation. -/
theorem claim_C5_two_row_eq_full_matrix (str1 str2 : String)
    (h : ¬ 2 * (max str1.length str2.length - min str1.length str2.length) >
      max str1.length str2.length) :
    levenshteinDistance str1 str2 = levenshteinDistanceFullMatrix str1 str2 := by
  rw [levenshteinDistance_def, if_neg (by simpa only [lowerStr_length] using h),
    levTwoRow_eq]
  rfl

/-- C5 witness: at `("cat", "cut")` the short-circuit does not fire and both
computations return distance 1. -/
theorem claim_C5_witness :
    (¬ 2 * (max "cat".length "cut".length - min "cat".length "cut".length) >
      max "cat".length "cut".length) ∧
    levenshteinDistance "cat" "cut" = levenshteinDistanceFullMatrix "cat" "cut" :=
  ⟨by decide, claim_C5_two_row_eq_full_matrix "cat" "cut" (by decide)⟩

/-- C6 (counterexample): the title `"x "` equals the search term `"x "`
under case-insensitive comparison, yet `findClosestMatch` returns
confidence `0.925`, not `1.0`, because the search term is additionally
trimmed before the exact-match comparison while the title is not. -/
theorem claim_C6_counterexample :
    lowerStr movieTrailingSpace.title = lowerStr "x " ∧
    (findClosestMatch [movieTrailingSpace] "x ").2 = 0.925 ∧
    (findClosestMatch [movieTrailingSpace] "x ").2 ≠ 1 := by
  have hts : titleMatchScore "x " movieTrailingSpace.title = 0.925 := by
    rw [show movieTrailingSpace.title = "x " from rfl]
    rw [titleMatchScore_eq "x " "x " _ _ _ _ rfl rfl rfl rfl]
    rw [if_neg (by decide), if_pos (by decide)]
    rw [show (jsTrim (lowerStr "x ")).length = 1 from by decide,
      show (lowerStr "x ").length = 2 from by decide]
    norm_num
  have hfcm : findClosestMatch [movieTrailingSpace] "x " =
      (some movieTrailingSpace, 0.925) := by
    show List.foldl (fcmStep "x ") (none, 0) [movieTrailingSpace] = _
    rw [List.foldl_cons, List.foldl_nil]
    simp only [fcmStep, hts]
    rw [if_pos (show ((none, 0) : Option Movie × ℚ).2 < 0.925 from by norm_num)]
  refine ⟨by decide, ?_, ?_⟩
  · rw [hfcm]
  · rw [hfcm]
    exact (by norm_num : (0.925 : ℚ) ≠ 1)

/-- C6 (amended): for every catalog containing a movie whose lowercased
title equals the lowercased and whitespace-trimmed search term,
`findClosestMatch` returns confidence exactly `1.0` together with a movie
whose lowercased title equals that trimmed lowercased search term. -/
theorem claim_C6_exact_match_confidence_one (movies : List Movie) (searchTerm : String)
    (h : ∃ m ∈ movies, lowerStr m.title = jsTrim (lowerStr searchTerm)) :
    (findClosestMatch movies searchTerm).2 = 1 ∧
    ∃ best, (findClosestMatch movies searchTerm).1 = some best ∧
      lowerStr best.title = jsTrim (lowerStr searchTerm) := by
  have hfold := fcm_fold_exact searchTerm movies (none, 0) (by norm_num)
    (fun h1 => absurd h1 (by norm_num)) (Or.inl h)
  exact hfold

/-- C6 witness: searching `"star wars"` in a catalog containing the title
`"Star Wars"` yields confidence 1.0 on that movie. -/
theorem claim_C6_witness :
    (findClosestMatch [movieStarWars] "star wars").2 = 1 ∧
    ∃ best, (findClosestMatch [movieStarWars] "star wars").1 = some best ∧
      lowerStr best.title = jsTrim (lowerStr "star wars") :=
  claim_C6_exact_match_confidence_one [movieStarWars] "star wars"
    ⟨movieStarWars, List.mem_singleton.mpr rfl, by decide⟩

/-- C7: `searchMovies` returns at most `maxResults` entries, every returned
entry satisfies `searchScore = 0.8 · titleScore + 0.2 · contentScore` and
`searchScore > 0.1`, and the entries are sorted in descending order of
`searchScore`. -/
theorem claim_C7_search_filtered_sorted_bounded (movies : List Movie)
    (searchTerm : String) (maxResults : ℕ) :
    (searchMovies movies searchTerm maxResults).length ≤ maxResults ∧
    allEntries (fun e => (0.1 : ℝ) < e.searchScore ∧
        e.searchScore = 0.8 * e.titleScore + 0.2 * e.contentScore)
      (searchMovies movies searchTerm maxResults) ∧
    List.Sorted (fun a b => b.searchScore ≤ a.searchScore)
      (searchMovies movies searchTerm maxResults) := by
  refine ⟨?_, ?_, ?_⟩
  · rw [searchMovies, List.length_take]
    omega
  · rw [allEntries_iff]
    intro e he
    rw [searchMovies] at he
    have h1 := List.take_subset _ _ he
    rw [mem_sortDesc] at h1
    obtain ⟨hmem, hsc⟩ := List.mem_filter.mp h1
    constructor
    · exact of_decide_eq_true hsc
    · obtain ⟨m, hm, rfl⟩ := List.mem_map.mp hmem
      have h2 : (searchScoreOf searchTerm m).searchScore =
          (searchScoreOf searchTerm m).titleScore * 0.80 +
          (searchScoreOf searchTerm m).contentScore * 0.20 := rfl
      rw [h2]
      ring
  · rw [searchMovies]
    exact List.Pairwise.sublist (List.take_sublist _ _)
      (sorted_sortDesc (fun e : SearchScoredMovie => e.searchScore) _)

/-- C8: the three text similarity primitives are symmetric in their two
arguments (including the short-circuit regime of the Levenshtein distance). -/
theorem claim_C8_similarity_symmetric (a b : String) :
    jaccardSimilarity a b = jaccardSimilarity b a ∧
    cosineSimilarity a b = cosineSimilarity b a ∧
    levenshteinSimilarity a b = levenshteinSimilarity b a :=
  ⟨jaccardSimilarity_symm a b, cosineSimilarity_symm a b, levenshteinSimilarity_symm a b⟩

/-- C9: `jaccardSimilarity a a = 1` whenever the normalization of `a` yields
at least one token, and `levenshteinSimilarity a a = 1` for every string `a`. -/
theorem claim_C9_self_similarity (a : String) :
    (preprocessText a ≠ [] → jaccardSimilarity a a = 1) ∧
    levenshteinSimilarity a a = 1 :=
  ⟨fun h => jaccardSimilarity_self a h, levenshteinSimilarity_self a⟩

/-- C9 witness: the string `"great"` normalizes to one token, and both self
similarities evaluate to 1 on it. -/
theorem claim_C9_witness :
    preprocessText "great" ≠ [] ∧ jaccardSimilarity "great" "great" = 1 ∧
    levenshteinSimilarity "great" "great" = 1 :=
  ⟨by decide, (claim_C9_self_similarity "great").1 (by decide),
    (claim_C9_self_similarity "great").2⟩

/-- C10: on a non-empty catalog whose titles are all non-empty, a
whitespace-only (or empty) search term makes `findClosestMatch` return the
first movie of the catalog with confidence exactly 0.85, through the
substring-containment branch with zero length ratio. -/
theorem claim_C10_whitespace_term_first_movie (m0 : Movie) (rest : List Movie)
    (searchTerm : String) (hws : ∀ c ∈ searchTerm.toList, isWS c = true)
    (h0 : m0.title ≠ "") (hrest : allEntries (fun m => m.title ≠ "") rest) :
    findClosestMatch (m0 :: rest) searchTerm = (some m0, 0.85) := by
  have hsc0 : titleMatchScore searchTerm m0.title = 0.85 :=
    titleMatchScore_ws searchTerm m0.title hws (lowerStr_ne_nil h0)
  show List.foldl (fcmStep searchTerm) (none, 0) (m0 :: rest) = (some m0, 0.85)
  rw [List.foldl_cons]
  have hstep : fcmStep searchTerm (none, 0) m0 = (some m0, 0.85) := by
    simp only [fcmStep, hsc0]
    rw [if_pos (by norm_num)]
  rw [hstep]
  apply fcm_fold_no_update
  intro m hm
  have hm' : titleMatchScore searchTerm m.title = 0.85 :=
    titleMatchScore_ws searchTerm m.title hws
      (lowerStr_ne_nil ((allEntries_iff _ rest).mp hrest m hm))
  rw [hm']
  norm_num

/-- C10 witness: a three-space search term over the singleton catalog
containing "Inception" returns that first movie with confidence 0.85. -/
theorem claim_C10_witness :
    findClosestMatch [movieInception] "   " = (some movieInception, 0.85) :=
  claim_C10_whitespace_term_first_movie movieInception [] "   "
    (by decide) (by decide) trivial
